import Mathlib

/-!
Shallow embedding of the Asana pull-request sync action (`src/main.ts`).

The engine consumes one GitHub webhook event per run, resolves the Asana
task tracking the pull request (find-or-create keyed by the "Github URL"
custom field), rebuilds the task's title/notes/status from the PR
snapshot, reconciles review subtasks, and applies the closure policy.

Backend calls (Asana client) are modelled by passing their observable
results and the backend task/subtask lists explicitly; sleeps and network
timing are not modelled, only the retry counts and outcomes.
-/

namespace AsanaSync

/-- Pull-request snapshot: the payload fields the engine reads
(`payload.pull_request` in `main.ts`). -/
structure PullRequest where
  number : Nat
  title : String
  body : Option String
  htmlUrl : String
  authorLogin : String
  state : String
  draft : Bool
  merged : Bool
deriving Repr, DecidableEq

/-- `getPRState` from `main.ts`: pure mapping from PR flags to the
"Github Status" enum-option name (the TS `PRState` string literal). -/
def getPRState (pr : PullRequest) : String :=
  if pr.merged then "Merged"
  else if pr.state = "open" then
    if pr.draft then "Draft" else "Open"
  else "Closed"

/-- C3: the status mapping is total (always one of the four values) and
order-sensitive: merged first, then open/draft, then open/non-draft,
anything else Closed; a merged PR whose state is "closed" maps to Merged. -/
theorem getPRState_total_spec (pr : PullRequest) :
    (getPRState pr = "Merged" ∨ getPRState pr = "Draft" ∨
      getPRState pr = "Open" ∨ getPRState pr = "Closed")
    ∧ (pr.merged = true → getPRState pr = "Merged")
    ∧ (pr.merged = false → pr.state = "open" → pr.draft = true →
        getPRState pr = "Draft")
    ∧ (pr.merged = false → pr.state = "open" → pr.draft = false →
        getPRState pr = "Open")
    ∧ (pr.merged = false → pr.state ≠ "open" → getPRState pr = "Closed")
    ∧ (pr.merged = true → pr.state = "closed" → getPRState pr = "Merged") := by
  unfold getPRState
  refine ⟨?_, ?_, ?_, ?_, ?_, ?_⟩
  · by_cases hm : pr.merged <;> by_cases hs : pr.state = "open" <;>
      by_cases hd : pr.draft <;> simp [hm, hs, hd]
  · intro hm; simp [hm]
  · intro hm hs hd; simp [hm, hs, hd]
  · intro hm hs hd; simp [hm, hs, hd]
  · intro hm hs; simp [hm, hs]
  · intro hm _; simp [hm]

/-- Witness for C3 at a concrete merged-but-closed snapshot. -/
theorem getPRState_total_spec_witness :
    getPRState ⟨7, "t", none, "u", "a", "closed", false, true⟩ = "Merged" :=
  (getPRState_total_spec ⟨7, "t", none, "u", "a", "closed", false, true⟩).2.2.2.2.2
    rfl rfl

/-- One custom-field value attached to a task (`gid` of the field and its
`display_value`, as read back by `findPRTask`; for a URL text field the
displayed value is the stored URL string). -/
structure CustomFieldValue where
  gid : String
  displayValue : String
deriving Repr, DecidableEq

/-- An Asana task as the engine sees it: opaque `gid`, name, notes, the
custom-field values, and the completed flag. -/
structure Task where
  gid : String
  name : String
  notes : String
  customFields : List CustomFieldValue
  completed : Bool
deriving Repr, DecidableEq

/-- Does `task` carry the PR URL in the URL custom field?  This is the
inner-loop test of `findPRTask`:
`field.gid === customFields.url.gid && field.display_value === prURL`. -/
def taskMatchesURL (urlFieldGid prURL : String) (task : Task) : Bool :=
  task.customFields.any fun f => f.gid = urlFieldGid && f.displayValue = prURL

/-- `findPRTask` from `main.ts`.  `searchResult` is what
`searchInWorkspace` returned for the custom-field query; `projectTasks`
is the project's task list, most recent first (`findByProject` is called
with `limit: 100`, so only the first 100 entries are fetched and
scanned).  Returns the first search hit if any, else the first of the
100 most recent project tasks whose URL field displays the PR URL,
else `null`. -/
def findPRTask (urlFieldGid prURL : String) (searchResult : List Task)
    (projectTasks : List Task) : Option Task :=
  match searchResult with
  | t :: _ => some t
  | [] => (projectTasks.take 100).find? (taskMatchesURL urlFieldGid prURL)

/-- C4: the resolver's lookup returns the first workspace-search result
whenever the search is non-empty; only on an empty search does it scan
the 100 most recent project tasks, returning the first URL-field match;
it returns none exactly when the search is empty and no scanned task
matches. -/
theorem findPRTask_spec (urlFieldGid prURL : String) (searchResult projectTasks : List Task) :
    (∀ t rest, searchResult = t :: rest →
      findPRTask urlFieldGid prURL searchResult projectTasks = some t)
    ∧ (searchResult = [] →
      findPRTask urlFieldGid prURL searchResult projectTasks =
        (projectTasks.take 100).find? (taskMatchesURL urlFieldGid prURL))
    ∧ (searchResult = [] →
      ∀ t, findPRTask urlFieldGid prURL searchResult projectTasks = some t →
        taskMatchesURL urlFieldGid prURL t = true ∧ t ∈ projectTasks.take 100)
    ∧ (findPRTask urlFieldGid prURL searchResult projectTasks = none ↔
      searchResult = [] ∧
        ∀ t ∈ projectTasks.take 100, taskMatchesURL urlFieldGid prURL t = false) := by
  refine ⟨?_, ?_, ?_, ?_⟩
  · intro t rest h; subst h; rfl
  · intro h; subst h; rfl
  · intro h t hfind; subst h
    unfold findPRTask at hfind
    exact ⟨List.find?_some hfind, List.mem_of_find?_eq_some hfind⟩
  · constructor
    · intro h
      cases hs : searchResult with
      | cons t rest => rw [hs] at h; exact absurd h (by simp [findPRTask])
      | nil =>
        refine ⟨rfl, ?_⟩
        rw [hs] at h; unfold findPRTask at h
        intro t ht
        simpa using List.find?_eq_none.mp h t ht
    · rintro ⟨hs, hall⟩
      subst hs
      unfold findPRTask
      exact List.find?_eq_none.mpr fun t ht => by simp [hall t ht]

/-- Witness for C4: search hit wins; empty search with non-matching
project task yields none. -/
theorem findPRTask_spec_witness :
    findPRTask "f1" "u1" [⟨"9", "n", "", [], false⟩] [] = some ⟨"9", "n", "", [], false⟩
    ∧ findPRTask "f1" "u1" [] [⟨"8", "n", "", [⟨"f2", "u1"⟩], false⟩] = none := by
  constructor
  · exact (findPRTask_spec "f1" "u1" [⟨"9", "n", "", [], false⟩] []).1 _ [] rfl
  · exact (findPRTask_spec "f1" "u1" [] [⟨"8", "n", "", [⟨"f2", "u1"⟩], false⟩]).2.2.2.mpr
      ⟨rfl, by decide⟩

/-- `createPRTask` from `main.ts`, as the task it adds to the backend:
custom fields set to the PR URL and the status enum-option gid, plus
name and notes.  (`freshGid` stands for the gid the backend assigns; the
optional parent back-reference extracted from the notes does not affect
these fields and is not needed by any claim.) -/
def createPRTask (urlFieldGid statusFieldGid prURL statusGid title notes freshGid : String) :
    Task :=
  { gid := freshGid
    name := title
    notes := notes
    customFields := [⟨urlFieldGid, prURL⟩, ⟨statusFieldGid, statusGid⟩]
    completed := false }

/-- The resolver's retry loop (`while retries < maxRetries` in `run`):
`lookup i` is what `findPRTask` returns on attempt `i` (attempts are
separated by a 20s sleep, not modelled); the loop stops at the first
attempt that finds a task.  `firstFound lookup n` is the loop's state
after at most `n` attempts. -/
def firstFound (lookup : Nat → Option Task) : Nat → Option Task
  | 0 => none
  | Nat.succ n =>
    match firstFound lookup n with
    | some t => some t
    | none => lookup n

/-- The task-resolution phase of `run` in `main.ts`: on action "opened"
always create; otherwise retry `findPRTask` up to 5 times and, if no
task ever appears, create a new task instead of raising an error
("Waited a long time and no task appeared. Assuming old PR and creating
a new task.").  Returns the resolved task, the "result" output string,
and the backend task list after the phase (a created task is appended). -/
def runResolve (action : String) (lookup : Nat → Option Task) (fresh : Task)
    (tasks : List Task) : Task × String × List Task :=
  if action = "opened" then (fresh, "created", tasks ++ [fresh])
  else
    match firstFound lookup 5 with
    | some t => (t, "updated", tasks)
    | none => (fresh, "created", tasks ++ [fresh])

/-- If every attempt misses, the loop ends with no task. -/
theorem firstFound_none (lookup : Nat → Option Task) (n : Nat)
    (h : ∀ i, i < n → lookup i = none) : firstFound lookup n = none := by
  induction n with
  | zero => rfl
  | succ m ih =>
    unfold firstFound
    rw [ih fun i hi => h i (Nat.lt_succ_of_lt hi), h m (Nat.lt_succ_self m)]

/-- If every attempt returns `some t`, the loop (run at least once)
returns `t`. -/
theorem firstFound_const (t : Task) (lookup : Nat → Option Task) (n : Nat)
    (hn : 0 < n) (h : ∀ i, i < n → lookup i = some t) : firstFound lookup n = some t := by
  induction n with
  | zero => exact absurd hn (Nat.lt_irrefl 0)
  | succ m ih =>
    unfold firstFound
    cases m with
    | zero => simp [firstFound, h 0 (Nat.lt_succ_self 0)]
    | succ k =>
      rw [ih (Nat.succ_pos k) fun i hi => h i (Nat.lt_succ_of_lt hi)]

/-- C1: on an action other than "opened", when all 5 lookup attempts
find no task, the resolver does not error: it creates a task whose URL
field holds the PR URL and whose Status field holds the status value,
and reports result "created". -/
theorem run_creates_after_retry_exhaustion (action : String) (lookup : Nat → Option Task)
    (urlFieldGid statusFieldGid prURL statusGid title notes freshGid : String)
    (tasks : List Task)
    (hact : action ≠ "opened") (hmiss : ∀ i, i < 5 → lookup i = none) :
    runResolve action lookup
        (createPRTask urlFieldGid statusFieldGid prURL statusGid title notes freshGid) tasks =
      (createPRTask urlFieldGid statusFieldGid prURL statusGid title notes freshGid,
        "created",
        tasks ++ [createPRTask urlFieldGid statusFieldGid prURL statusGid title notes freshGid])
    ∧ taskMatchesURL urlFieldGid prURL
        (createPRTask urlFieldGid statusFieldGid prURL statusGid title notes freshGid) = true
    ∧ (createPRTask urlFieldGid statusFieldGid prURL statusGid title notes
        freshGid).customFields = [⟨urlFieldGid, prURL⟩, ⟨statusFieldGid, statusGid⟩] := by
  refine ⟨?_, ?_, rfl⟩
  · unfold runResolve
    rw [if_neg hact, firstFound_none lookup 5 hmiss]
  · simp [taskMatchesURL, createPRTask]

/-- Witness for C1 at a concrete "closed" event with a backend that
never finds the task. -/
theorem run_creates_after_retry_exhaustion_witness :
    runResolve "closed" (fun _ => none)
        (createPRTask "f1" "f2" "u" "s" "T" "N" "42") [] =
      (createPRTask "f1" "f2" "u" "s" "T" "N" "42", "created",
        [createPRTask "f1" "f2" "u" "s" "T" "N" "42"]) :=
  (run_creates_after_retry_exhaustion "closed" (fun _ => none)
    "f1" "f2" "u" "s" "T" "N" "42" [] (by decide) (fun i _ => rfl)).1

/-- C5 counterexample: with action "opened" the resolver never looks up;
even when the PR's task (gid "1") already exists and is discoverable
(the workspace search returns it), each run creates a fresh task and
returns its gid, so a second identical run returns a different
identifier and leaves three tasks carrying the same URL. -/
theorem runResolve_opened_duplicate_counterexample :
    findPRTask "f1" "u" [⟨"1", "T", "N", [⟨"f1", "u"⟩], false⟩] [] =
      some ⟨"1", "T", "N", [⟨"f1", "u"⟩], false⟩
    ∧ runResolve "opened" (fun _ => findPRTask "f1" "u" [⟨"1", "T", "N", [⟨"f1", "u"⟩], false⟩] [])
        (createPRTask "f1" "f2" "u" "s" "T" "N" "2") [⟨"1", "T", "N", [⟨"f1", "u"⟩], false⟩] =
      (createPRTask "f1" "f2" "u" "s" "T" "N" "2", "created",
        [⟨"1", "T", "N", [⟨"f1", "u"⟩], false⟩, createPRTask "f1" "f2" "u" "s" "T" "N" "2"])
    ∧ runResolve "opened" (fun _ => findPRTask "f1" "u" [⟨"1", "T", "N", [⟨"f1", "u"⟩], false⟩] [])
        (createPRTask "f1" "f2" "u" "s" "T" "N" "3")
        [⟨"1", "T", "N", [⟨"f1", "u"⟩], false⟩, createPRTask "f1" "f2" "u" "s" "T" "N" "2"] =
      (createPRTask "f1" "f2" "u" "s" "T" "N" "3", "created",
        [⟨"1", "T", "N", [⟨"f1", "u"⟩], false⟩, createPRTask "f1" "f2" "u" "s" "T" "N" "2",
          createPRTask "f1" "f2" "u" "s" "T" "N" "3"])
    ∧ (createPRTask "f1" "f2" "u" "s" "T" "N" "3").gid ≠
        (createPRTask "f1" "f2" "u" "s" "T" "N" "2").gid
    ∧ (List.filter (taskMatchesURL "f1" "u")
        [⟨"1", "T", "N", [⟨"f1", "u"⟩], false⟩, createPRTask "f1" "f2" "u" "s" "T" "N" "2",
          createPRTask "f1" "f2" "u" "s" "T" "N" "3"]).length = 3 := by
  refine ⟨rfl, rfl, rfl, by decide, by decide⟩

/-- C5 (amended to actions other than "opened", where resolution
performs the lookup): once the task exists and is discoverable — the
lookup returns it — resolution returns that task with result "updated"
and leaves the backend task list unchanged, and running it again over
the unchanged backend returns the same task identifier; no duplicate is
ever created. -/
theorem runResolve_idempotent_when_discoverable (action urlFieldGid prURL : String)
    (searchResult projectTasks : List Task) (t fresh1 fresh2 : Task) (tasks : List Task)
    (hact : action ≠ "opened")
    (hfind : findPRTask urlFieldGid prURL searchResult projectTasks = some t) :
    runResolve action (fun _ => findPRTask urlFieldGid prURL searchResult projectTasks)
        fresh1 tasks = (t, "updated", tasks)
    ∧ runResolve action (fun _ => findPRTask urlFieldGid prURL searchResult projectTasks)
        fresh2 tasks = (t, "updated", tasks) := by
  have hloop : firstFound (fun _ => findPRTask urlFieldGid prURL searchResult projectTasks) 5 =
      some t :=
    firstFound_const t _ 5 (by decide) fun i _ => hfind
  constructor
  · unfold runResolve
    rw [if_neg hact, hloop]
  · unfold runResolve
    rw [if_neg hact, hloop]

/-- Witness for the amended C5 on a concrete consistent backend. -/
theorem runResolve_idempotent_when_discoverable_witness :
    runResolve "edited"
        (fun _ => findPRTask "f1" "u" [⟨"1", "T", "N", [⟨"f1", "u"⟩], false⟩] [])
        (createPRTask "f1" "f2" "u" "s" "T" "N" "2")
        [⟨"1", "T", "N", [⟨"f1", "u"⟩], false⟩] =
      (⟨"1", "T", "N", [⟨"f1", "u"⟩], false⟩, "updated",
        [⟨"1", "T", "N", [⟨"f1", "u"⟩], false⟩]) :=
  (runResolve_idempotent_when_discoverable "edited" "f1" "u"
    [⟨"1", "T", "N", [⟨"f1", "u"⟩], false⟩] [] ⟨"1", "T", "N", [⟨"f1", "u"⟩], false⟩
    (createPRTask "f1" "f2" "u" "s" "T" "N" "2") (createPRTask "f1" "f2" "u" "s" "T" "N" "2")
    [⟨"1", "T", "N", [⟨"f1", "u"⟩], false⟩] (by decide) rfl).1

/-- `closeSubtasks` from `main.ts`: mark every subtask of the task
completed (`updateTask(subtask.gid, \x7bcompleted: true\x7d)` for each). -/
def closeSubtasks (subtasks : List Task) : List Task :=
  subtasks.map fun t => { t with completed := true }

/-- The close decision of `run` in `main.ts`: `closeTask` starts `true`
and is overridden to `false` for each project membership found in
`NO_AUTOCLOSE_LIST`; the resulting flag is written as the parent task's
`completed` flag by the final update. -/
def decideCloseTask (memberships noAutocloseList : List String) : Bool :=
  memberships.foldl
    (fun closeTask m => if noAutocloseList.contains m then false else closeTask) true

/-- The close branch of `run`: when the PR state is "closed", cascade
`closeSubtasks` and compute the close decision; on any other state the
subtasks are left to review reconciliation and `closeTask` stays
`false`. -/
def closePhase (prState : String) (subtasks : List Task)
    (memberships noAutocloseList : List String) : List Task × Bool :=
  if prState = "closed" then
    (closeSubtasks subtasks, decideCloseTask memberships noAutocloseList)
  else (subtasks, false)

theorem decideCloseTask_foldl (noAutocloseList : List String) (memberships : List String)
    (acc : Bool) :
    memberships.foldl
        (fun closeTask m => if noAutocloseList.contains m then false else closeTask) acc =
      (acc && memberships.all fun m => !noAutocloseList.contains m) := by
  induction memberships generalizing acc with
  | nil => simp
  | cons m rest ih =>
    rw [List.foldl_cons, ih, List.all_cons]
    by_cases h : noAutocloseList.contains m = true
    · simp [h, Bool.and_comm, Bool.and_left_comm, Bool.and_assoc]
    · simp only [Bool.not_eq_true] at h
      simp [h, Bool.and_comm, Bool.and_left_comm, Bool.and_assoc]

/-- Every task in the image of `closeSubtasks` is completed. -/
theorem closeSubtasks_completed (subtasks : List Task) :
    ∀ t ∈ closeSubtasks subtasks, t.completed = true := by
  intro t ht
  simp only [closeSubtasks, List.mem_map] at ht
  obtain ⟨s, _, rfl⟩ := ht
  rfl

/-- C6: on an event whose PR state is "closed", every existing subtask
is set to completed (none dropped), and the parent's close flag — the
`completed` value of the final task update — is true exactly when no
project membership of the task is in the no-autoclose list. -/
theorem closePhase_spec (prState : String) (subtasks : List Task)
    (memberships noAutocloseList : List String) (h : prState = "closed") :
    (∀ t ∈ (closePhase prState subtasks memberships noAutocloseList).1, t.completed = true)
    ∧ (closePhase prState subtasks memberships noAutocloseList).1.length = subtasks.length
    ∧ ((closePhase prState subtasks memberships noAutocloseList).2 = true ↔
        ∀ m ∈ memberships, noAutocloseList.contains m = false) := by
  subst h
  have hph : closePhase "closed" subtasks memberships noAutocloseList =
      (closeSubtasks subtasks, decideCloseTask memberships noAutocloseList) := by
    simp [closePhase]
  refine ⟨?_, ?_, ?_⟩
  · rw [hph]
    exact closeSubtasks_completed subtasks
  · rw [hph]
    simp [closeSubtasks]
  · rw [hph]
    show decideCloseTask memberships noAutocloseList = true ↔ _
    rw [decideCloseTask, decideCloseTask_foldl]
    simp

/-- Witness for C6: one open subtask, membership in the no-autoclose
list: the subtask completes, the parent close flag is governed by the
membership test. -/
theorem closePhase_spec_witness :
    (∀ t ∈ (closePhase "closed" [⟨"9", "R", "", [], false⟩] ["p1"] ["p1"]).1,
      t.completed = true)
    ∧ ((closePhase "closed" [⟨"9", "R", "", [], false⟩] ["p1"] ["p1"]).2 = true ↔
        ∀ m ∈ (["p1"] : List String), (["p1"] : List String).contains m = false) :=
  ⟨(closePhase_spec "closed" [⟨"9", "R", "", [], false⟩] ["p1"] ["p1"] rfl).1,
    (closePhase_spec "closed" [⟨"9", "R", "", [], false⟩] ["p1"] ["p1"] rfl).2.2⟩

/-- One persisted task update as `updateTask` receives it: name, the
notes content sent (rich or plain), whether it went through the
`html_notes` field, the completed flag, and the Github Status
custom-field value. -/
structure TaskUpdate where
  name : String
  notesContent : String
  usedRichNotes : Bool
  completed : Bool
  statusFieldValue : String
deriving Repr, DecidableEq

/-- One `updateTask` call against a backend that accepts or rejects
rich-text notes: a rich-notes update is rejected (throws, `none`) when
the backend does not accept rich notes; a plaintext update always
succeeds. -/
def attemptUpdate (acceptsRich : Bool) (u : TaskUpdate) : Option TaskUpdate :=
  if u.usedRichNotes && !acceptsRich then none else some u

/-- The final update of `run` in `main.ts`: try `updateTask` with
`html_notes` first; if that call throws, retry the same update (same
name, completed flag, status field) with plaintext `notes`.  `none`
would mean the run fails. -/
def updateTaskWithFallback (acceptsRich : Bool) (title htmlNotes notes : String)
    (closeTask : Bool) (statusGid : String) : Option TaskUpdate :=
  match attemptUpdate acceptsRich ⟨title, htmlNotes, true, closeTask, statusGid⟩ with
  | some u => some u
  | none => attemptUpdate acceptsRich ⟨title, notes, false, closeTask, statusGid⟩

/-- C7: when the backend rejects the rich-notes update, the engine
retries with plaintext notes, keeping the same name, completed flag and
status value, and the run does not fail. -/
theorem updateTaskWithFallback_spec (title htmlNotes notes : String) (closeTask : Bool)
    (statusGid : String) (hrej : attemptUpdate false ⟨title, htmlNotes, true, closeTask,
      statusGid⟩ = none) :
    updateTaskWithFallback false title htmlNotes notes closeTask statusGid =
      some ⟨title, notes, false, closeTask, statusGid⟩
    ∧ updateTaskWithFallback false title htmlNotes notes closeTask statusGid ≠ none := by
  constructor
  · unfold updateTaskWithFallback
    rw [hrej]
    rfl
  · unfold updateTaskWithFallback
    rw [hrej]
    intro hcontra
    exact Option.noConfusion hcontra

/-- Witness for C7 at a concrete update. -/
theorem updateTaskWithFallback_spec_witness :
    updateTaskWithFallback false "T" "<body>h</body>" "n" false "s" =
      some ⟨"T", "n", false, false, "s"⟩ :=
  (updateTaskWithFallback_spec "T" "<body>h</body>" "n" false "s" rfl).1

/-- A review subtask as the reconciler observes it: gid, the resolved
assignee contact address (`none` when the subtask has no assignee — the
source's `continue`), and the completed flag.  The source resolves
`subtask.assignee.gid` through `client.users.findById` to an email
before comparing; `assigneeEmail` is that resolved address. -/
structure Subtask where
  gid : String
  assigneeEmail : Option String
  completed : Bool
deriving Repr, DecidableEq

/-- Reconciler configuration: the `USER_MAP` login-to-mail table and the
`SKIPPED_USERS` list. -/
structure ReviewConfig where
  mailMap : List (String × String)
  skippedUsers : List String
deriving Repr

/-- `getUserFromLogin` from `main.ts`: `null` for logins absent from
`USER_MAP` ("Ignore unknown"), otherwise the mapped mail with the fixed
domain appended. -/
def getUserFromLogin (cfg : ReviewConfig) (login : String) : Option String :=
  match cfg.mailMap.lookup login with
  | none => none
  | some mail => some (mail ++ "@duckduckgo.com")

/-- `createOrReopenReviewSubtask` from `main.ts`: bail out (touching
nothing) when the reviewer is in the skip-list or their address does not
resolve; otherwise look for the first subtask whose assignee resolves to
the reviewer's address — when found, reopen it (`completed: false`) and
return it; when absent, create a fresh subtask assigned to the reviewer.
Returns the new subtask list and the subtask handed back to the caller
(`null` on the bail-out path). -/
def createOrReopenReviewSubtask (cfg : ReviewConfig) (reviewer freshGid : String)
    (subtasks : List Subtask) : List Subtask × Option Subtask :=
  let reviewerEmail := getUserFromLogin cfg reviewer
  if cfg.skippedUsers.contains reviewer ∨ reviewerEmail = none then
    (subtasks, none)
  else
    match subtasks.find? (fun st => st.assigneeEmail == reviewerEmail) with
    | some st =>
      (subtasks.map (fun s => if s.gid = st.gid then { s with completed := false } else s),
        some st)
    | none =>
      (subtasks ++ [⟨freshGid, reviewerEmail, false⟩], some ⟨freshGid, reviewerEmail, false⟩)

/-- The two reconciliation triggers handled by `updateReviewSubTasks`:
a `review_requested` pull-request action, and a submitted review with
state `approved`. -/
inductive ReviewEvent where
  | requested (reviewer : String)
  | approved (reviewer : String)
deriving Repr, DecidableEq

/-- The approval tail of `updateReviewSubTasks`: when
`createOrReopenReviewSubtask` handed back a subtask, complete it
(`updateTask(subtask.gid, \x7bcompleted: true\x7d)`). -/
def completeReturned (res : List Subtask × Option Subtask) : List Subtask :=
  match res.2 with
  | none => res.1
  | some st => res.1.map fun s => if s.gid = st.gid then { s with completed := true } else s

/-- `updateReviewSubTasks` from `main.ts`, one event at a time: on a
review request, create-or-reopen for the requested reviewer; on an
approval, create-or-reopen for the review's author and then complete the
returned subtask (when not `null`). -/
def updateReviewSubTasks (cfg : ReviewConfig) (ev : ReviewEvent) (freshGid : String)
    (subtasks : List Subtask) : List Subtask :=
  match ev with
  | .requested r => (createOrReopenReviewSubtask cfg r freshGid subtasks).1
  | .approved r => completeReturned (createOrReopenReviewSubtask cfg r freshGid subtasks)

/-- A whole sequence of reconciliations against one parent task; each
event carries the gid the backend would assign to a subtask created by
it. -/
def applyReviewEvents (cfg : ReviewConfig) (events : List (ReviewEvent × String))
    (subtasks : List Subtask) : List Subtask :=
  events.foldl (fun sts ev => updateReviewSubTasks cfg ev.1 ev.2 sts) subtasks

/-- How many subtasks of the parent have an assignee resolving to
`email`. -/
def countFor (email : String) (subtasks : List Subtask) : Nat :=
  (subtasks.filter fun st => st.assigneeEmail == some email).length

/-- Reopening/completing subtasks only toggles `completed`; the per-email
count is untouched by any assignee-preserving map. -/
theorem countFor_map (email : String) (g : Subtask → Subtask)
    (hg : ∀ s, (g s).assigneeEmail = s.assigneeEmail) (sts : List Subtask) :
    countFor email (sts.map g) = countFor email sts := by
  unfold countFor
  rw [List.filter_map, List.length_map]
  congr 1
  apply List.filter_congr
  intro s _
  simp [Function.comp, hg s]

theorem countFor_append_one (email : String) (sts : List Subtask) (st : Subtask) :
    countFor email (sts ++ [st]) =
      countFor email sts + if st.assigneeEmail = some email then 1 else 0 := by
  unfold countFor
  rw [List.filter_append, List.length_append]
  congr 1
  by_cases h : st.assigneeEmail = some email
  · simp [h]
  · simp [h]

/-- Completing the returned subtask only toggles its flag: per-email
counts are unchanged. -/
theorem countFor_completeReturned (email : String) (res : List Subtask × Option Subtask) :
    countFor email (completeReturned res) = countFor email res.1 := by
  obtain ⟨sts1, found⟩ := res
  cases found with
  | none => rfl
  | some st =>
    exact countFor_map email _ (fun s => by by_cases h : s.gid = st.gid <;> simp [h]) sts1

/-- One reconciliation step never pushes a per-email subtask count above
`max (previous count) 1`: reuse and skip leave it unchanged, and a
creation only happens when no subtask with that assignee existed. -/
theorem countFor_updateReviewSubTasks (cfg : ReviewConfig) (ev : ReviewEvent)
    (freshGid : String) (email : String) (sts : List Subtask) :
    countFor email (updateReviewSubTasks cfg ev freshGid sts) ≤
      max (countFor email sts) 1 := by
  have hcreate : ∀ r, countFor email (createOrReopenReviewSubtask cfg r freshGid sts).1 ≤
      max (countFor email sts) 1 := by
    intro r
    unfold createOrReopenReviewSubtask
    by_cases hskip : cfg.skippedUsers.contains r ∨ getUserFromLogin cfg r = none
    · rw [if_pos hskip]
      exact Nat.le_max_left _ _
    · rw [if_neg hskip]
      cases hfind : sts.find? (fun st => st.assigneeEmail == getUserFromLogin cfg r) with
      | some st =>
        simp only
        rw [countFor_map email _ (fun s => by by_cases h : s.gid = st.gid <;> simp [h])]
        exact Nat.le_max_left _ _
      | none =>
        simp only
        rw [countFor_append_one]
        by_cases hmail : (Subtask.mk freshGid (getUserFromLogin cfg r) false).assigneeEmail =
            some email
        · rw [if_pos hmail]
          have hzero : countFor email sts = 0 := by
            unfold countFor
            rw [List.length_eq_zero]
            rw [List.filter_eq_nil_iff]
            intro st hst
            have := List.find?_eq_none.mp hfind st hst
            simp only [Bool.not_eq_true] at this
            simp only [beq_eq_false_iff_ne, ne_eq] at this
            simp only [beq_iff_eq]
            simp only [Subtask.mk] at hmail
            rw [← hmail]
            exact this
          rw [hzero]
          exact Nat.le_max_right _ _
        · rw [if_neg hmail, Nat.add_zero]
          exact Nat.le_max_left _ _
  cases ev with
  | requested r => exact hcreate r
  | approved r =>
    calc countFor email (updateReviewSubTasks cfg (.approved r) freshGid sts)
        = countFor email (createOrReopenReviewSubtask cfg r freshGid sts).1 :=
          countFor_completeReturned email _
      _ ≤ max (countFor email sts) 1 := hcreate r

/-- `find?` by assignee address commutes with a map that preserves
assignees. -/
theorem find?_map_assignee (e : String) (g : Subtask → Subtask)
    (hg : ∀ s, (g s).assigneeEmail = s.assigneeEmail) (sts : List Subtask) :
    (sts.map g).find? (fun st => st.assigneeEmail == some e) =
      (sts.find? (fun st => st.assigneeEmail == some e)).map g := by
  induction sts with
  | nil => rfl
  | cons s rest ih =>
    by_cases h : (s.assigneeEmail == some e) = true
    · have h2 : ((g s).assigneeEmail == some e) = true := by rw [hg s]; exact h
      simp [List.find?_cons, h, h2]
    · have h1 : (s.assigneeEmail == some e) = false := by
        simpa using h
      have h2 : ((g s).assigneeEmail == some e) = false := by rw [hg s]; exact h1
      simp [List.find?_cons, h1, h2, ih]

/-- C2: per (parent task, resolved reviewer address), review
reconciliation maintains at most one subtask, open or completed, across
any sequence of request/approve events; and a request for a reviewer who
already has a subtask reuses it — same list length, the matching subtask
merely reopened (`completed := false`) — never creating a second one. -/
theorem reviewReconciler_at_most_one (cfg : ReviewConfig) :
    (∀ (events : List (ReviewEvent × String)) (start : List Subtask),
      (∀ email, countFor email start ≤ 1) →
      ∀ email, countFor email (applyReviewEvents cfg events start) ≤ 1)
    ∧ (∀ (r e freshGid : String) (sts : List Subtask) (st₀ : Subtask),
        getUserFromLogin cfg r = some e →
        cfg.skippedUsers.contains r = false →
        sts.find? (fun st => st.assigneeEmail == some e) = some st₀ →
        (updateReviewSubTasks cfg (.requested r) freshGid sts).length = sts.length
        ∧ (updateReviewSubTasks cfg (.requested r) freshGid sts).find?
            (fun st => st.assigneeEmail == some e) =
          some { st₀ with completed := false }) := by
  constructor
  · intro events
    induction events with
    | nil => intro start h email; exact h email
    | cons ev rest ih =>
      intro start h email
      have hstep : applyReviewEvents cfg (ev :: rest) start =
          applyReviewEvents cfg rest (updateReviewSubTasks cfg ev.1 ev.2 start) := rfl
      rw [hstep]
      refine ih (updateReviewSubTasks cfg ev.1 ev.2 start) ?_ email
      intro email'
      have hle := countFor_updateReviewSubTasks cfg ev.1 ev.2 email' start
      exact le_trans hle (max_le (h email') (le_refl 1))
  · intro r e freshGid sts st₀ hres hskip hfound
    have hcond : ¬(cfg.skippedUsers.contains r = true ∨ (some e : Option String) = none) := by
      rintro (h1 | h2)
      · rw [hskip] at h1; exact Bool.noConfusion h1
      · exact Option.noConfusion h2
    have hc : createOrReopenReviewSubtask cfg r freshGid sts =
        (sts.map (fun s => if s.gid = st₀.gid then { s with completed := false } else s),
          some st₀) := by
      simp only [createOrReopenReviewSubtask, hres]
      rw [if_neg hcond, hfound]
    constructor
    · show (createOrReopenReviewSubtask cfg r freshGid sts).1.length = sts.length
      rw [hc]
      exact List.length_map sts _
    · show ((createOrReopenReviewSubtask cfg r freshGid sts).1.find? _) = _
      rw [hc]
      have hmap := find?_map_assignee e
        (fun s => if s.gid = st₀.gid then { s with completed := false } else s)
        (fun s => by by_cases h : s.gid = st₀.gid <;> simp [h]) sts
      rw [hmap, hfound]
      simp

/-- Witness for C2: mapped reviewer "alice" with an existing completed
subtask — a repeated request keeps one subtask and reopens it; and a
request/approve/request sequence from empty keeps the count at one. -/
theorem reviewReconciler_at_most_one_witness :
    ((updateReviewSubTasks ⟨[("alice", "alice")], []⟩ (.requested "alice") "g2"
        [⟨"g1", some "alice@duckduckgo.com", true⟩]).length =
      ([(⟨"g1", some "alice@duckduckgo.com", true⟩ : Subtask)] : List Subtask).length
    ∧ (updateReviewSubTasks ⟨[("alice", "alice")], []⟩ (.requested "alice") "g2"
        [⟨"g1", some "alice@duckduckgo.com", true⟩]).find?
          (fun st => st.assigneeEmail == some "alice@duckduckgo.com") =
      some ⟨"g1", some "alice@duckduckgo.com", false⟩)
    ∧ countFor "alice@duckduckgo.com"
        (applyReviewEvents ⟨[("alice", "alice")], []⟩
          [(.requested "alice", "g1"), (.approved "alice", "g2"), (.requested "alice", "g3")]
          []) ≤ 1 := by
  constructor
  · exact (reviewReconciler_at_most_one ⟨[("alice", "alice")], []⟩).2 "alice"
      "alice@duckduckgo.com" "g2" [⟨"g1", some "alice@duckduckgo.com", true⟩]
      ⟨"g1", some "alice@duckduckgo.com", true⟩ rfl rfl rfl
  · exact (reviewReconciler_at_most_one ⟨[("alice", "alice")], []⟩).1
      [(.requested "alice", "g1"), (.approved "alice", "g2"), (.requested "alice", "g3")]
      [] (fun _ => Nat.zero_le 1) "alice@duckduckgo.com"

/-- C8: a reviewer in the skip-list, or with no entry in the
login-to-mail map, causes no subtask creation and no modification: the
reconciler returns with the backend's subtask set unchanged, on both the
request and the approval path. -/
theorem skipped_or_unmapped_untouched (cfg : ReviewConfig) (r freshGid : String)
    (sts : List Subtask)
    (h : cfg.skippedUsers.contains r = true ∨ getUserFromLogin cfg r = none) :
    updateReviewSubTasks cfg (.requested r) freshGid sts = sts
    ∧ updateReviewSubTasks cfg (.approved r) freshGid sts = sts := by
  have hc : createOrReopenReviewSubtask cfg r freshGid sts = (sts, none) := by
    simp only [createOrReopenReviewSubtask]
    rw [if_pos h]
  constructor
  · show (createOrReopenReviewSubtask cfg r freshGid sts).1 = sts
    rw [hc]
  · show completeReturned (createOrReopenReviewSubtask cfg r freshGid sts) = sts
    rw [hc]
    rfl

/-- Witness for C8: skip-listed "bob" and unmapped "carol" leave an
existing subtask list untouched. -/
theorem skipped_or_unmapped_untouched_witness :
    updateReviewSubTasks ⟨[], ["bob"]⟩ (.requested "bob") "g9"
        [⟨"g1", some "x@duckduckgo.com", false⟩] =
      [⟨"g1", some "x@duckduckgo.com", false⟩]
    ∧ updateReviewSubTasks ⟨[("alice", "alice")], []⟩ (.approved "carol") "g9"
        [⟨"g1", some "x@duckduckgo.com", false⟩] =
      [⟨"g1", some "x@duckduckgo.com", false⟩] :=
  ⟨(skipped_or_unmapped_untouched ⟨[], ["bob"]⟩ "bob" "g9"
      [⟨"g1", some "x@duckduckgo.com", false⟩] (Or.inl rfl)).1,
    (skipped_or_unmapped_untouched ⟨[("alice", "alice")], []⟩ "carol" "g9"
      [⟨"g1", some "x@duckduckgo.com", false⟩] (Or.inr rfl)).2⟩

/-- JS `split` on newline, over the body text as a character list: the
list of lines with the separators removed; always non-empty (splitting
the empty string yields one empty line). -/
def splitOnNl (s : List Char) : List (List Char) :=
  match s with
  | [] => [[]]
  | c :: rest =>
    if c = '\n' then [] :: splitOnNl rest
    else
      match splitOnNl rest with
      | [] => [[c]]
      | l :: ls => (c :: l) :: ls

/-- Join lines back with newline separators (inverse of `splitOnNl` on
newline-free lines). -/
def joinNl : List (List Char) → List Char
  | [] => []
  | [l] => l
  | l :: ls => l ++ '\n' :: joinNl ls

/-- The footer strip on the line list: everything from the first line
equal to "---" on is dropped; the newline that preceded the match stays
(the matched text starts at the line start), which the empty trailing
line records. -/
def stripLines : List (List Char) → List (List Char)
  | [] => []
  | l :: rest => if l = ['-', '-', '-'] then [[]] else l :: stripLines rest

/-- The `replace` step of `run` in `main.ts`: remove any line consisting
solely of "---" and everything after it (the regex anchors the dashes to
a whole line and consumes to the end of the string). -/
def stripBody (s : List Char) : List Char :=
  joinNl (stripLines (splitOnNl s))

/-- The truncation step of `run`: bodies longer than 5000 characters are
cut at 5000 and an ellipsis character is appended. -/
def truncateBody (s : List Char) : List Char :=
  if 5000 < s.length then s.take 5000 ++ ['…'] else s

/-- The content builder's body transformation in `run`:
truncate-then-strip, producing the body part of the task notes. -/
def buildBodyText (s : List Char) : List Char :=
  stripBody (truncateBody s)

theorem splitOnNl_ne_nil (s : List Char) : splitOnNl s ≠ [] := by
  match s with
  | [] => simp [splitOnNl]
  | c :: rest =>
    by_cases h : c = '\n'
    · simp [splitOnNl, h]
    · simp only [splitOnNl, if_neg h]
      cases hsp : splitOnNl rest with
      | nil => simp
      | cons l ls => simp

theorem noNl_splitOnNl (s : List Char) : ∀ l ∈ splitOnNl s, '\n' ∉ l := by
  induction s with
  | nil =>
    intro l hl
    simp only [splitOnNl, List.mem_singleton] at hl
    subst hl
    simp
  | cons c rest ih =>
    intro l hl
    by_cases h : c = '\n'
    · simp only [splitOnNl, if_pos h] at hl
      rcases List.mem_cons.mp hl with h1 | h1
      · subst h1; simp
      · exact ih l h1
    · simp only [splitOnNl, if_neg h] at hl
      cases hsp : splitOnNl rest with
      | nil => exact absurd hsp (splitOnNl_ne_nil rest)
      | cons m ms =>
        rw [hsp] at hl
        rcases List.mem_cons.mp hl with h1 | h1
        · subst h1
          intro hmem
          rcases List.mem_cons.mp hmem with h2 | h2
          · exact h h2.symm
          · exact ih m (hsp ▸ List.mem_cons_self m ms) h2
        · exact ih l (hsp ▸ List.mem_cons_of_mem m h1)

theorem splitOnNl_noNl (l : List Char) (h : '\n' ∉ l) : splitOnNl l = [l] := by
  induction l with
  | nil => rfl
  | cons c rest ih =>
    have hc : ¬c = '\n' := fun hcc => h (hcc ▸ List.mem_cons_self c rest)
    have hrest : splitOnNl rest = [rest] := ih fun hm => h (List.mem_cons_of_mem c hm)
    simp only [splitOnNl, if_neg hc, hrest]

theorem splitOnNl_append (l t : List Char) (h : '\n' ∉ l) :
    splitOnNl (l ++ '\n' :: t) = l :: splitOnNl t := by
  induction l with
  | nil => simp [splitOnNl]
  | cons c rest ih =>
    have hc : ¬c = '\n' := fun hcc => h (hcc ▸ List.mem_cons_self c rest)
    have hrest : splitOnNl (rest ++ '\n' :: t) = rest :: splitOnNl t :=
      ih fun hm => h (List.mem_cons_of_mem c hm)
    simp only [List.cons_append, splitOnNl, if_neg hc]
    rw [show rest.append ('\n' :: t) = rest ++ '\n' :: t from rfl, hrest]

theorem joinNl_cons_of_ne_nil (l : List Char) (ls : List (List Char)) (h : ls ≠ []) :
    joinNl (l :: ls) = l ++ '\n' :: joinNl ls := by
  cases ls with
  | nil => exact absurd rfl h
  | cons m ms => rfl

theorem splitOnNl_joinNl (ls : List (List Char)) (hnl : ∀ l ∈ ls, '\n' ∉ l)
    (hne : ls ≠ []) : splitOnNl (joinNl ls) = ls := by
  induction ls with
  | nil => exact absurd rfl hne
  | cons l rest ih =>
    cases rest with
    | nil => exact splitOnNl_noNl l (hnl l (List.mem_cons_self l []))
    | cons m ms =>
      rw [joinNl_cons_of_ne_nil l (m :: ms) (by simp)]
      rw [splitOnNl_append l _ (hnl l (List.mem_cons_self l (m :: ms)))]
      rw [ih (fun x hx => hnl x (List.mem_cons_of_mem l hx)) (by simp)]

theorem joinNl_splitOnNl (s : List Char) : joinNl (splitOnNl s) = s := by
  induction s with
  | nil => rfl
  | cons c rest ih =>
    by_cases h : c = '\n'
    · simp only [splitOnNl, if_pos h]
      rw [joinNl_cons_of_ne_nil [] (splitOnNl rest) (splitOnNl_ne_nil rest), ih, h]
      rfl
    · simp only [splitOnNl, if_neg h]
      cases hsp : splitOnNl rest with
      | nil => exact absurd hsp (splitOnNl_ne_nil rest)
      | cons m ms =>
        rw [hsp] at ih
        cases ms with
        | nil =>
          show c :: m = c :: rest
          rw [show joinNl [m] = m from rfl] at ih
          rw [ih]
        | cons m2 ms2 =>
          rw [joinNl_cons_of_ne_nil (c :: m) (m2 :: ms2) (by simp)]
          rw [joinNl_cons_of_ne_nil m (m2 :: ms2) (by simp)] at ih
          rw [List.cons_append, ih]

theorem stripLines_idem (ls : List (List Char)) :
    stripLines (stripLines ls) = stripLines ls := by
  induction ls with
  | nil => rfl
  | cons l rest ih =>
    by_cases h : l = ['-', '-', '-']
    · simp [stripLines, h]
    · simp [stripLines, h, ih]

theorem stripLines_ne_nil (ls : List (List Char)) (h : ls ≠ []) : stripLines ls ≠ [] := by
  cases ls with
  | nil => exact absurd rfl h
  | cons l rest =>
    by_cases hd : l = ['-', '-', '-'] <;> simp [stripLines, hd]

theorem stripLines_noNl (ls : List (List Char)) (hnl : ∀ l ∈ ls, '\n' ∉ l) :
    ∀ l ∈ stripLines ls, '\n' ∉ l := by
  induction ls with
  | nil => intro l hl; simp [stripLines] at hl
  | cons m rest ih =>
    intro l hl
    by_cases hd : m = ['-', '-', '-']
    · simp only [stripLines, if_pos hd, List.mem_singleton] at hl
      subst hl
      simp
    · simp only [stripLines, if_neg hd] at hl
      rcases List.mem_cons.mp hl with h1 | h1
      · rw [h1]; exact hnl m (List.mem_cons_self m rest)
      · exact ih (fun x hx => hnl x (List.mem_cons_of_mem m hx)) l h1

/-- Stripping is either the identity or strictly shortens the text. -/
theorem stripLines_eq_or_joinNl_lt (ls : List (List Char)) :
    stripLines ls = ls ∨ (joinNl (stripLines ls)).length < (joinNl ls).length := by
  induction ls with
  | nil => exact Or.inl rfl
  | cons l rest ih =>
    by_cases hd : l = ['-', '-', '-']
    · right
      have h1 : stripLines (l :: rest) = [[]] := by simp [stripLines, hd]
      rw [h1]
      show ([] : List Char).length < (joinNl (l :: rest)).length
      cases rest with
      | nil => subst hd; simp [joinNl]
      | cons m ms =>
        rw [joinNl_cons_of_ne_nil l (m :: ms) (by simp)]
        subst hd
        simp
    · rcases ih with h | h
      · left; simp [stripLines, hd, h]
      · right
        have h1 : stripLines (l :: rest) = l :: stripLines rest := by simp [stripLines, hd]
        rw [h1]
        cases rest with
        | nil => exact absurd h (lt_irrefl _)
        | cons m ms =>
          rw [joinNl_cons_of_ne_nil l (stripLines (m :: ms)) (stripLines_ne_nil _ (by simp))]
          rw [joinNl_cons_of_ne_nil l (m :: ms) (by simp)]
          simp only [List.length_append, List.length_cons]
          omega

theorem stripBody_idem (s : List Char) : stripBody (stripBody s) = stripBody s := by
  unfold stripBody
  rw [splitOnNl_joinNl (stripLines (splitOnNl s))
    (stripLines_noNl _ (noNl_splitOnNl s))
    (stripLines_ne_nil _ (splitOnNl_ne_nil s))]
  rw [stripLines_idem]

theorem stripBody_eq_or_lt (s : List Char) :
    stripBody s = s ∨ (stripBody s).length < s.length := by
  rcases stripLines_eq_or_joinNl_lt (splitOnNl s) with h | h
  · left
    unfold stripBody
    rw [h, joinNl_splitOnNl]
  · right
    unfold stripBody
    calc (joinNl (stripLines (splitOnNl s))).length
        < (joinNl (splitOnNl s)).length := h
      _ = s.length := by rw [joinNl_splitOnNl]

theorem stripBody_length_le (s : List Char) : (stripBody s).length ≤ s.length := by
  rcases stripBody_eq_or_lt s with h | h
  · rw [h]
  · exact Nat.le_of_lt h

/-- C9: the body transformation — truncate past 5000 characters with an
ellipsis, then drop any "---" line and everything after it — is
idempotent: rebuilding already-built body text returns it unchanged. -/
theorem buildBodyText_idempotent (s : List Char) :
    buildBodyText (buildBodyText s) = buildBodyText s := by
  unfold buildBodyText
  by_cases hlen : 5000 < (stripBody (truncateBody s)).length
  · have hle : (stripBody (truncateBody s)).length ≤ (truncateBody s).length :=
      stripBody_length_le _
    have hs : 5000 < s.length := by
      by_contra hns
      have htr0 : truncateBody s = s := by unfold truncateBody; rw [if_neg hns]
      rw [htr0] at hlen hle
      omega
    have htr : truncateBody s = s.take 5000 ++ ['…'] := by
      unfold truncateBody; rw [if_pos hs]
    have hlentr : (truncateBody s).length = 5001 := by
      rw [htr]
      simp [List.length_take]
      omega
    have heq : stripBody (truncateBody s) = truncateBody s := by
      rcases stripBody_eq_or_lt (truncateBody s) with h | h
      · exact h
      · rw [hlentr] at h; omega
    have hl2 : (s.take 5000 ++ ['…']).length = 5001 := by
      simp [List.length_take]
      omega
    have htr2 : truncateBody (stripBody (truncateBody s)) = stripBody (truncateBody s) := by
      rw [heq, htr]
      unfold truncateBody
      rw [if_pos (show 5000 < (s.take 5000 ++ ['…']).length by rw [hl2]; omega)]
      have hlen5000 : (s.take 5000).length = 5000 := by
        simp [List.length_take]
        omega
      have htake : (s.take 5000 ++ ['…']).take 5000 = s.take 5000 := by
        rw [List.take_append_of_le_length (by omega)]
        simp [List.take_take]
      rw [htake]
    rw [htr2, stripBody_idem]
  · have htr3 : truncateBody (stripBody (truncateBody s)) = stripBody (truncateBody s) := by
      revert hlen
      generalize stripBody (truncateBody s) = y
      intro hlen
      unfold truncateBody
      rw [if_neg hlen]
    rw [htr3, stripBody_idem]

/-- One enum option of the "Github Status" custom field. -/
structure EnumOption where
  gid : String
  name : String
deriving Repr, DecidableEq

/-- The `statusGid` computation in `run`: find the enum option (when the
field has `enum_options` at all) whose name equals the computed PR
state, take its gid, and default to the empty string when either step
yields nothing (a found-but-empty gid is likewise surfaced as "" by the
falsy-or in the source; the two agree since the default is ""). -/
def computeStatusGid (enumOptions : Option (List EnumOption)) (stateName : String) : String :=
  match enumOptions with
  | none => ""
  | some opts =>
    match opts.find? (fun o => o.name == stateName) with
    | none => ""
    | some o => o.gid

/-- C10: when the Status field exists but none of its enum options is
named after the computed PR state, the run does not fail: the empty
string is the status value used both by task creation and by the final
update (rich or plaintext). -/
theorem missing_status_option_uses_empty (pr : PullRequest) (opts : List EnumOption)
    (urlFieldGid statusFieldGid prURL title notes htmlNotes freshGid : String)
    (acceptsRich closeTask : Bool)
    (h : ∀ o ∈ opts, o.name ≠ getPRState pr) :
    computeStatusGid (some opts) (getPRState pr) = ""
    ∧ (createPRTask urlFieldGid statusFieldGid prURL
        (computeStatusGid (some opts) (getPRState pr)) title notes freshGid).customFields =
      [⟨urlFieldGid, prURL⟩, ⟨statusFieldGid, ""⟩]
    ∧ updateTaskWithFallback acceptsRich title htmlNotes notes closeTask
        (computeStatusGid (some opts) (getPRState pr)) ≠ none
    ∧ ∀ u ∈ updateTaskWithFallback acceptsRich title htmlNotes notes closeTask
        (computeStatusGid (some opts) (getPRState pr)), u.statusFieldValue = "" := by
  have hfind : opts.find? (fun o => o.name == getPRState pr) = none :=
    List.find?_eq_none.mpr fun o ho => by simpa using h o ho
  have hgid : computeStatusGid (some opts) (getPRState pr) = "" := by
    show (match opts.find? (fun o => o.name == getPRState pr) with
      | none => ""
      | some o => o.gid) = ""
    rw [hfind]
  refine ⟨hgid, ?_, ?_, ?_⟩
  · rw [hgid]
    rfl
  · rw [hgid]
    unfold updateTaskWithFallback attemptUpdate
    cases acceptsRich with
    | false => simp
    | true => simp
  · rw [hgid]
    intro u hu
    unfold updateTaskWithFallback attemptUpdate at hu
    cases acceptsRich with
    | false =>
      simp at hu
      rw [← hu]
    | true =>
      simp at hu
      rw [← hu]

/-- Witness for C10: a Status field whose only options are "Blocked" and
"Review" while the PR maps to "Open". -/
theorem missing_status_option_uses_empty_witness :
    computeStatusGid (some [⟨"11", "Blocked"⟩, ⟨"12", "Review"⟩])
        (getPRState ⟨1, "t", none, "u", "a", "open", false, false⟩) = ""
    ∧ updateTaskWithFallback true "T" "<body>h</body>" "n" false
        (computeStatusGid (some [⟨"11", "Blocked"⟩, ⟨"12", "Review"⟩])
          (getPRState ⟨1, "t", none, "u", "a", "open", false, false⟩)) ≠ none := by
  have happ := missing_status_option_uses_empty ⟨1, "t", none, "u", "a", "open", false, false⟩
    [⟨"11", "Blocked"⟩, ⟨"12", "Review"⟩] "f1" "f2" "u" "T" "n" "<body>h</body>" "9"
    true false (by decide)
  exact ⟨happ.1, happ.2.2.1⟩

end AsanaSync
